import Mathlib

/-!
Verification of the typed configuration accessor of allpix-squared
(src/core/config/Configuration.tpp).

The accessor templates in Configuration.tpp are translated directly.  The
collaborators they use (the raw-text store, the structural parser
parse_value, and the from_string / to_string converter capability) are not
part of the given source file and are modelled from the specification, as
documented on each such definition.
-/

namespace Allpix

/-- Modelled from the spec: a parse-tree element ("Node") produced by the
structural parser.  It carries the raw text of the element and its ordered
sub-elements; a leaf has no children.  The root node's value holds the full
trimmed text, since the scalar accessor converts the root's value. -/
structure Node where
  value : String
  children : List Node

/-- Modelled from the spec: the failure signals of the from_string converter
capability, which "fails with a malformed-value signal, possibly
distinguishing overflow".  These correspond to std::invalid_argument and
std::overflow_error thrown by allpix::from_string. -/
inductive ConvError where
  | invalidArg (msg : String)
  | overflow (msg : String)

/-- The error taxonomy surfaced by the accessor layer: MissingKeyError and
InvalidKeyError, carrying key, owning block name, and (for invalid keys)
offending text, target type descriptor and reason. -/
inductive CfgError where
  | missingKey (key name : String)
  | invalidKey (key name text tyName reason : String)

/-- Modelled from the spec: whitespace characters, insignificant around
tokens and separators. -/
def isWs (c : Char) : Bool :=
  c = ' ' || c = '\t' || c = '\n' || c = '\r'

/-- Drop leading whitespace characters. -/
def trimStart (l : List Char) : List Char :=
  l.dropWhile isWs

/-- Drop leading and trailing whitespace characters. -/
def trimChars (l : List Char) : List Char :=
  (trimStart (trimStart l).reverse).reverse

/-- Modelled from the spec: split a character list at the commas that occur
at bracket depth zero; commas inside square brackets do not separate
top-level elements. -/
def splitTop : List Char → Nat → List Char → List (List Char)
  | [], _, acc => [acc.reverse]
  | c :: rest, depth, acc =>
    if c = ',' ∧ depth = 0 then acc.reverse :: splitTop rest 0 []
    else if c = '[' then splitTop rest (depth + 1) (c :: acc)
    else if c = ']' then splitTop rest (depth - 1) (c :: acc)
    else splitTop rest depth (c :: acc)

/-- Modelled from the spec: bracket balance check; the structural parser
fails on mismatched brackets. -/
def balanced : List Char → Nat → Bool
  | [], depth => depth == 0
  | c :: rest, depth =>
    if c = '[' then balanced rest (depth + 1)
    else if c = ']' then depth != 0 && balanced rest (depth - 1)
    else balanced rest depth

/-- Modelled from the spec: parse a list of comma-separated pieces into
nodes.  A trimmed piece enclosed in square brackets becomes a container
whose children are the parsed pieces of its inside; any other piece becomes
a leaf.  The fuel argument bounds the bracket nesting depth; callers supply
more fuel than any input can consume, and on exhaustion the remaining
pieces are kept as leaves. -/
def parseNodes : Nat → List (List Char) → List Node
  | _, [] => []
  | 0, pieces => pieces.map (fun p => ⟨String.mk (trimChars p), []⟩)
  | fuel + 1, piece :: rest =>
    let t := trimChars piece
    let nd : Node :=
      if t.head? = some '[' ∧ t.getLast? = some ']' then
        let inner := (t.drop 1).dropLast
        if trimChars inner = [] then ⟨String.mk t, []⟩
        else ⟨String.mk t, parseNodes fuel (splitTop inner 0 [])⟩
      else ⟨String.mk t, []⟩
    nd :: parseNodes fuel rest

/-- Modelled from the spec: the structural parser parse_value.  It trims
the raw text, rejects mismatched brackets, and returns a root node whose
children are the top-level comma-separated elements (none for empty text),
recursively parsed.  No type interpretation happens here. -/
def parse_value (s : String) : Except String Node :=
  let t := trimChars s.data
  if balanced t 0 = false then .error "mismatched brackets"
  else if t = [] then .ok ⟨String.mk t, []⟩
  else .ok ⟨String.mk t, parseNodes (2 * t.length + 2) (splitTop t 0 [])⟩

/-- Modelled from the spec: the external key to raw-text store (std::map
in the source), as an association list. -/
abbrev Store := List (String × String)

/-- Lookup of a key's raw text; none models the not-found signal of at(). -/
def Store.find : Store → String → Option String
  | [], _ => none
  | (k', v) :: rest, k => if k' = k then some v else Store.find rest k

/-- Insert-or-assign, the behavior of the map's subscript assignment. -/
def Store.set : Store → String → String → Store
  | [], k, v => [(k, v)]
  | (k', v') :: rest, k, v =>
    if k' = k then (k, v) :: rest else (k', v') :: Store.set rest k v

/-- Membership test, the store's has(key). -/
def Store.has (s : Store) (k : String) : Bool :=
  (Store.find s k).isSome

/-- Configuration::get (Configuration.tpp lines 16-31).  Looks up the raw
text (out_of_range becomes MissingKeyError), parses it, and converts the
root node's value; an invalid_argument from the converter is wrapped with
the node's value, while a parse failure or an overflow_error reaches the
outer handlers, which record the stored raw text. -/
def get {T : Type} (ty : String) (fs : String → Except ConvError T)
    (name k : String) (s : Store) : Except CfgError T :=
  match Store.find s k with
  | none => .error (.missingKey k name)
  | some r =>
    match parse_value r with
    | .error e => .error (.invalidKey k name r ty e)
    | .ok nd =>
      match fs nd.value with
      | .ok v => .ok v
      | .error (.invalidArg m) => .error (.invalidKey k name nd.value ty m)
      | .error (.overflow m) => .error (.invalidKey k name r ty m)

/-- Configuration::get with default (lines 36-41): if has(key), delegate to
get, otherwise return the default. -/
def getWithDefault {T : Type} (ty : String) (fs : String → Except ConvError T)
    (name k : String) (d : T) (s : Store) : Except CfgError T :=
  if Store.has s k = true then get ty fs name k s else .ok d

/-- Element-wise conversion of a node list, as performed by the loop of
Configuration::getArray: the first converter failure aborts, reporting the
offending child's value alongside the converter's error. -/
def convArray {T : Type} (fs : String → Except ConvError T) :
    List Node → Except (String × ConvError) (List T)
  | [] => .ok []
  | c :: rest =>
    match fs c.value with
    | .error e => .error (c.value, e)
    | .ok v =>
      match convArray fs rest with
      | .error e => .error e
      | .ok vs => .ok (v :: vs)

/-- Configuration::getArray (lines 48-69).  Converts each top-level child's
value in order; an invalid_argument is wrapped inside the loop with that
child's value, while an overflow_error propagates to the outer handler,
which records the full stored raw text. -/
def getArray {T : Type} (ty : String) (fs : String → Except ConvError T)
    (name k : String) (s : Store) : Except CfgError (List T) :=
  match Store.find s k with
  | none => .error (.missingKey k name)
  | some r =>
    match parse_value r with
    | .error e => .error (.invalidKey k name r ty e)
    | .ok nd =>
      match convArray fs nd.children with
      | .ok vs => .ok vs
      | .error (txt, .invalidArg m) => .error (.invalidKey k name txt ty m)
      | .error (_, .overflow m) => .error (.invalidKey k name r ty m)

/-- Configuration::getArray with default (lines 74-79). -/
def getArrayWithDefault {T : Type} (ty : String)
    (fs : String → Except ConvError T) (name k : String) (d : List T)
    (s : Store) : Except CfgError (List T) :=
  if Store.has s k = true then getArray ty fs name k s else .ok d

/-- Matrix, an ordered sequence of rows of possibly different lengths. -/
abbrev Matrix (T : Type) := List (List T)

/-- Failure modes of the getMatrix loop: an empty row (the invalid_argument
"matrix has less than two dimensions", which escapes to the outer handler)
or an element conversion failure with the offending leaf's text. -/
inductive MatErr where
  | dims
  | elem (txt : String) (e : ConvError)

/-- Row-wise conversion of the children, as performed by the loop of
Configuration::getMatrix: a child without children raises the
dimension error; otherwise its children are converted element-wise. -/
def convMatrix {T : Type} (fs : String → Except ConvError T) :
    List Node → Except MatErr (Matrix T)
  | [] => .ok []
  | c :: rest =>
    match c.children with
    | [] => .error .dims
    | _ :: _ =>
      match convArray fs c.children with
      | .error (txt, e) => .error (.elem txt e)
      | .ok row =>
        match convMatrix fs rest with
        | .error e => .error e
        | .ok rows => .ok (row :: rows)

/-- Configuration::getMatrix (lines 86-116).  Each top-level child must
itself have children; an empty child raises invalid_argument "matrix has
less than two dimensions", caught by the outer handler together with the
full raw text.  Element conversion failures behave as in getArray. -/
def getMatrix {T : Type} (ty : String) (fs : String → Except ConvError T)
    (name k : String) (s : Store) : Except CfgError (Matrix T) :=
  match Store.find s k with
  | none => .error (.missingKey k name)
  | some r =>
    match parse_value r with
    | .error e => .error (.invalidKey k name r ty e)
    | .ok nd =>
      match convMatrix fs nd.children with
      | .ok m => .ok m
      | .error .dims =>
        .error (.invalidKey k name r ty "matrix has less than two dimensions")
      | .error (.elem txt (.invalidArg m)) => .error (.invalidKey k name txt ty m)
      | .error (.elem _ (.overflow m)) => .error (.invalidKey k name r ty m)

/-- Configuration::getMatrix with default (lines 122-127). -/
def getMatrixWithDefault {T : Type} (ty : String)
    (fs : String → Except ConvError T) (name k : String) (d : Matrix T)
    (s : Store) : Except CfgError (Matrix T) :=
  if Store.has s k = true then getMatrix ty fs name k s else .ok d

/-- Configuration::set (lines 129-131): store the serialization of the
value, where ts models the to_string converter for T. -/
def set {T : Type} (ts : T → String) (k : String) (v : T) (s : Store) : Store :=
  Store.set s k (ts v)

/-- Configuration::setArray (lines 132-140), translated as written: on
every loop iteration the code appends a comma and then to_string applied to
the WHOLE vector val (not to the element el), and finally stores the built
string through set (whose to_string on an already raw string is modelled
from the spec as the identity).  tsVec models whatever to_string overload
the call to_string(val) resolves to. -/
def setArray {T : Type} (tsVec : List T → String) (k : String)
    (val : List T) (s : Store) : Store :=
  let str := val.foldl (fun acc _el => acc ++ "," ++ tsVec val) ""
  set (fun x : String => x) k str s

/-- Configuration::setDefault (lines 142-146): set only if the key is
absent. -/
def setDefault {T : Type} (ts : T → String) (k : String) (v : T)
    (s : Store) : Store :=
  if Store.has s k = true then s else set ts k v s

/-- Configuration::setDefaultArray (lines 148-152): setArray only if the
key is absent. -/
def setDefaultArray {T : Type} (tsVec : List T → String) (k : String)
    (val : List T) (s : Store) : Store :=
  if Store.has s k = true then s else setArray tsVec k val s

/-- Numeric value of a decimal digit character. -/
def digitVal (c : Char) : Nat :=
  c.toNat - '0'.toNat

/-- Accumulating decimal reader over the characters of a token. -/
def natFromCharsAux : List Char → Nat → Option Nat
  | [], acc => some acc
  | c :: rest, acc =>
    if '0' ≤ c ∧ c ≤ '9' then natFromCharsAux rest (acc * 10 + digitVal c)
    else none

/-- Decimal reading of a non-empty all-digit token. -/
def natFromChars : List Char → Option Nat
  | [] => none
  | l => natFromCharsAux l 0

/-- Modelled from the spec: a concrete from_string converter for natural
numbers, an instance of the converter capability; it fails with the
malformed-value signal on non-numeric text. -/
def natFromString (s : String) : Except ConvError Nat :=
  match natFromChars s.data with
  | some n => .ok n
  | none => .error (.invalidArg "conversion failed")

/-- Modelled from the spec: a concrete from_string converter for an 8-bit
unsigned range, an instance of the converter capability that distinguishes
the overflow signal from the malformed-value signal. -/
def u8FromString (s : String) : Except ConvError Nat :=
  match natFromChars s.data with
  | none => .error (.invalidArg "conversion failed")
  | some n => if n < 256 then .ok n else .error (.overflow "overflow")

/-- A serialized scalar token: non-empty text containing no separator, no
bracket and no whitespace, as to_string produces for integers. -/
def plainToken (s : String) : Prop :=
  s.data ≠ [] ∧ ∀ c ∈ s.data, c ≠ ',' ∧ c ≠ '[' ∧ c ≠ ']' ∧ isWs c = false

instance (s : String) : Decidable (plainToken s) := by
  unfold plainToken; infer_instance

/-- The store read at(key) in explicit state-passing form: a const lookup
that returns the store it was given. -/
def atS (k : String) (s : Store) : Option String × Store :=
  (Store.find s k, s)

/-- The store query has(key) in state-passing form. -/
def hasS (k : String) (s : Store) : Bool × Store :=
  match atS k s with
  | (r, s1) => (r.isSome, s1)

/-- Configuration::get in state-passing form: every access to the store,
including the re-reads config_.at(key) performed inside the catch
handlers, threads the store state explicitly. -/
def getS {T : Type} (ty : String) (fs : String → Except ConvError T)
    (name k : String) (s : Store) : Except CfgError T × Store :=
  match atS k s with
  | (none, s1) => (.error (.missingKey k name), s1)
  | (some r, s1) =>
    match parse_value r with
    | .error e =>
      match atS k s1 with
      | (r2, s2) => (.error (.invalidKey k name (r2.getD r) ty e), s2)
    | .ok nd =>
      match fs nd.value with
      | .ok v => (.ok v, s1)
      | .error (.invalidArg m) =>
        (.error (.invalidKey k name nd.value ty m), s1)
      | .error (.overflow m) =>
        match atS k s1 with
        | (r2, s2) => (.error (.invalidKey k name (r2.getD r) ty m), s2)

/-- Configuration::getArray in state-passing form. -/
def getArrayS {T : Type} (ty : String) (fs : String → Except ConvError T)
    (name k : String) (s : Store) : Except CfgError (List T) × Store :=
  match atS k s with
  | (none, s1) => (.error (.missingKey k name), s1)
  | (some r, s1) =>
    match parse_value r with
    | .error e =>
      match atS k s1 with
      | (r2, s2) => (.error (.invalidKey k name (r2.getD r) ty e), s2)
    | .ok nd =>
      match convArray fs nd.children with
      | .ok vs => (.ok vs, s1)
      | .error (txt, .invalidArg m) =>
        (.error (.invalidKey k name txt ty m), s1)
      | .error (_, .overflow m) =>
        match atS k s1 with
        | (r2, s2) => (.error (.invalidKey k name (r2.getD r) ty m), s2)

/-- Configuration::getMatrix in state-passing form. -/
def getMatrixS {T : Type} (ty : String) (fs : String → Except ConvError T)
    (name k : String) (s : Store) : Except CfgError (Matrix T) × Store :=
  match atS k s with
  | (none, s1) => (.error (.missingKey k name), s1)
  | (some r, s1) =>
    match parse_value r with
    | .error e =>
      match atS k s1 with
      | (r2, s2) => (.error (.invalidKey k name (r2.getD r) ty e), s2)
    | .ok nd =>
      match convMatrix fs nd.children with
      | .ok m => (.ok m, s1)
      | .error .dims =>
        match atS k s1 with
        | (r2, s2) =>
          (.error (.invalidKey k name (r2.getD r) ty
            "matrix has less than two dimensions"), s2)
      | .error (.elem txt (.invalidArg m)) =>
        (.error (.invalidKey k name txt ty m), s1)
      | .error (.elem _ (.overflow m)) =>
        match atS k s1 with
        | (r2, s2) => (.error (.invalidKey k name (r2.getD r) ty m), s2)

/-- Configuration::get with default in state-passing form. -/
def getWithDefaultS {T : Type} (ty : String)
    (fs : String → Except ConvError T) (name k : String) (d : T)
    (s : Store) : Except CfgError T × Store :=
  match hasS k s with
  | (true, s1) => getS ty fs name k s1
  | (false, s1) => (.ok d, s1)

/-- Configuration::getArray with default in state-passing form. -/
def getArrayWithDefaultS {T : Type} (ty : String)
    (fs : String → Except ConvError T) (name k : String) (d : List T)
    (s : Store) : Except CfgError (List T) × Store :=
  match hasS k s with
  | (true, s1) => getArrayS ty fs name k s1
  | (false, s1) => (.ok d, s1)

/-- Configuration::getMatrix with default in state-passing form. -/
def getMatrixWithDefaultS {T : Type} (ty : String)
    (fs : String → Except ConvError T) (name k : String) (d : Matrix T)
    (s : Store) : Except CfgError (Matrix T) × Store :=
  match hasS k s with
  | (true, s1) => getMatrixS ty fs name k s1
  | (false, s1) => (.ok d, s1)

/-! Helper lemmas about the string model, the parser and the store. -/

theorem strExt {s t : String} (h : s.data = t.data) : s = t := by
  cases s; cases t; cases h; rfl

theorem strData_append (s t : String) : (s ++ t).data = s.data ++ t.data := rfl

theorem trimStart_eq_self (l : List Char) (h : ∀ c ∈ l, isWs c = false) :
    trimStart l = l := by
  cases l with
  | nil => rfl
  | cons c rest =>
    unfold trimStart
    rw [List.dropWhile_cons, h c (List.mem_cons_self c rest)]
    simp

theorem trimChars_eq_self (l : List Char) (h : ∀ c ∈ l, isWs c = false) :
    trimChars l = l := by
  unfold trimChars
  rw [trimStart_eq_self l h,
    trimStart_eq_self l.reverse (fun c hc => h c (List.mem_reverse.mp hc)),
    List.reverse_reverse]

theorem balanced_no_brackets (l : List Char)
    (h : ∀ c ∈ l, c ≠ '[' ∧ c ≠ ']') : ∀ d, balanced l d = (d == 0) := by
  induction l with
  | nil => intro d; rfl
  | cons c rest ih =>
    intro d
    have hc := h c (List.mem_cons_self c rest)
    unfold balanced
    rw [if_neg hc.1, if_neg hc.2]
    exact ih (fun c' hc' => h c' (List.mem_cons_of_mem c hc')) d

theorem splitTop_no_sep (l : List Char)
    (h : ∀ c ∈ l, c ≠ ',' ∧ c ≠ '[' ∧ c ≠ ']') :
    ∀ acc, splitTop l 0 acc = [acc.reverse ++ l] := by
  induction l with
  | nil => intro acc; simp [splitTop]
  | cons c rest ih =>
    intro acc
    have hc := h c (List.mem_cons_self c rest)
    unfold splitTop
    rw [if_neg (fun hand => hc.1 hand.1), if_neg hc.2.1, if_neg hc.2.2,
      ih (fun c' hc' => h c' (List.mem_cons_of_mem c hc')) (c :: acc)]
    simp

theorem parseNodes_nil (fuel : Nat) : parseNodes fuel [] = [] := by
  cases fuel <;> rfl

theorem parseNodes_single_plain (l : List Char) (hne : l ≠ [])
    (h : ∀ c ∈ l, c ≠ ',' ∧ c ≠ '[' ∧ c ≠ ']' ∧ isWs c = false) :
    ∀ fuel, parseNodes fuel [l] = [⟨String.mk l, []⟩] := by
  have htrim : trimChars l = l :=
    trimChars_eq_self l (fun c hc => (h c hc).2.2.2)
  intro fuel
  cases fuel with
  | zero => simp [parseNodes, htrim]
  | succ fuel =>
    obtain ⟨c, rest, rfl⟩ : ∃ c rest, l = c :: rest := by
      cases l with
      | nil => exact absurd rfl hne
      | cons c rest => exact ⟨c, rest, rfl⟩
    unfold parseNodes
    simp only [htrim, List.head?]
    rw [if_neg, parseNodes_nil]
    intro hand
    have hc : c = '[' := by simpa using hand.1
    exact (h c (List.mem_cons_self c rest)).2.1 hc

theorem parse_plain (s : String) (h : plainToken s) :
    parse_value s = .ok ⟨s, [⟨s, []⟩]⟩ := by
  obtain ⟨hne, hall⟩ := h
  have htrim : trimChars s.data = s.data :=
    trimChars_eq_self _ (fun c hc => (hall c hc).2.2.2)
  have hbal : balanced s.data 0 = true := by
    rw [balanced_no_brackets s.data
      (fun c hc => ⟨(hall c hc).2.1, (hall c hc).2.2.1⟩) 0]
    rfl
  have hsplit : splitTop s.data 0 [] = [s.data] := by
    simpa using splitTop_no_sep s.data
      (fun c hc => ⟨(hall c hc).1, (hall c hc).2.1, (hall c hc).2.2.1⟩) []
  unfold parse_value
  simp only [htrim, hbal, hsplit]
  rw [if_neg (by simp), if_neg hne,
    parseNodes_single_plain s.data hne
      (fun c hc => ⟨(hall c hc).1, (hall c hc).2.1, (hall c hc).2.2.1,
        (hall c hc).2.2.2⟩)]

theorem find_set_self (s : Store) (k v : String) :
    Store.find (Store.set s k v) k = some v := by
  induction s with
  | nil => simp [Store.set, Store.find]
  | cons p rest ih =>
    obtain ⟨k', v'⟩ := p
    unfold Store.set
    by_cases h : k' = k
    · rw [if_pos h]; unfold Store.find; rw [if_pos rfl]
    · rw [if_neg h]; unfold Store.find; rw [if_neg h]; exact ih

theorem convArray_all_ok {T : Type} (fs : String → Except ConvError T)
    {l : List Node} {vs : List T}
    (h : List.Forall₂ (fun (c : Node) (v : T) => fs c.value = .ok v) l vs) :
    convArray fs l = .ok vs := by
  induction h with
  | nil => rfl
  | cons hcv _ ih =>
    unfold convArray
    rw [hcv, ih]

theorem convArray_first_error {T : Type} (fs : String → Except ConvError T)
    (pre : List Node) (c : Node) (rest : List Node) (e : ConvError)
    (hpre : ∀ c' ∈ pre, ∃ v, fs c'.value = .ok v)
    (hc : fs c.value = .error e) :
    convArray fs (pre ++ c :: rest) = .error (c.value, e) := by
  induction pre with
  | nil =>
    simp only [List.nil_append]
    unfold convArray
    rw [hc]
  | cons p ps ih =>
    obtain ⟨v, hv⟩ := hpre p (List.mem_cons_self p ps)
    simp only [List.cons_append]
    unfold convArray
    rw [hv, ih (fun c' hc' => hpre c' (List.mem_cons_of_mem p hc'))]

theorem convArray_ok_length {T : Type} (fs : String → Except ConvError T) :
    ∀ (l : List Node) (vs : List T),
      convArray fs l = .ok vs → vs.length = l.length := by
  intro l
  induction l with
  | nil =>
    intro vs h
    unfold convArray at h
    cases h
    rfl
  | cons c rest ih =>
    intro vs h
    unfold convArray at h
    cases hfs : fs c.value with
    | error e => rw [hfs] at h; cases h
    | ok v =>
      rw [hfs] at h
      cases hrest : convArray fs rest with
      | error e => rw [hrest] at h; cases h
      | ok ws =>
        rw [hrest] at h
        cases h
        simp [ih ws hrest]

theorem convMatrix_all_ok {T : Type} (fs : String → Except ConvError T)
    {l : List Node} {rows : Matrix T}
    (h : List.Forall₂ (fun (c : Node) (row : List T) =>
      c.children ≠ [] ∧ convArray fs c.children = .ok row) l rows) :
    convMatrix fs l = .ok rows := by
  induction h with
  | nil => rfl
  | @cons a b l' rows' hcr _ ih =>
    obtain ⟨hne, hconv⟩ := hcr
    obtain ⟨x, xs, hach⟩ := List.exists_cons_of_ne_nil hne
    rw [hach] at hconv
    unfold convMatrix
    simp only [hach, hconv, ih]

theorem convMatrix_first_dims {T : Type} (fs : String → Except ConvError T)
    (pre : List Node) (c : Node) (rest : List Node)
    (hpre : ∀ c' ∈ pre,
      c'.children ≠ [] ∧ ∃ row, convArray fs c'.children = .ok row)
    (hc : c.children = []) :
    convMatrix fs (pre ++ c :: rest) = .error .dims := by
  induction pre with
  | nil =>
    simp only [List.nil_append]
    unfold convMatrix
    simp only [hc]
  | cons p ps ih =>
    obtain ⟨hne, row, hrow⟩ := hpre p (List.mem_cons_self p ps)
    obtain ⟨x, xs, hach⟩ := List.exists_cons_of_ne_nil hne
    rw [hach] at hrow
    simp only [List.cons_append]
    unfold convMatrix
    simp only [hach, hrow,
      ih (fun c' hc' => hpre c' (List.mem_cons_of_mem p hc'))]

theorem convMatrix_error_of_mem_empty {T : Type}
    (fs : String → Except ConvError T) :
    ∀ l : List Node, (∃ c ∈ l, c.children = []) →
      ∃ e, convMatrix fs l = .error e := by
  intro l
  induction l with
  | nil =>
    rintro ⟨c, hc, _⟩
    exact absurd hc (List.not_mem_nil c)
  | cons a l' ih =>
    rintro ⟨c, hc, hce⟩
    cases hach : a.children with
    | nil =>
      refine ⟨.dims, ?_⟩
      unfold convMatrix
      simp only [hach]
    | cons x xs =>
      rcases List.mem_cons.mp hc with rfl | hmem
      · rw [hce] at hach; cases hach
      · cases hconv : convArray fs (x :: xs) with
        | error pe =>
          obtain ⟨txt, ce⟩ := pe
          refine ⟨.elem txt ce, ?_⟩
          unfold convMatrix
          simp only [hach, hconv]
        | ok row =>
          obtain ⟨e, he⟩ := ih ⟨c, hmem, hce⟩
          refine ⟨e, ?_⟩
          unfold convMatrix
          simp only [hach, hconv, he]

theorem get_not_missing {T : Type} (ty : String)
    (fs : String → Except ConvError T) (name k r : String) (s : Store)
    (hfind : Store.find s k = some r) :
    ∀ k' n', get ty fs name k s ≠ .error (.missingKey k' n') := by
  intro k' n' h
  unfold get at h
  simp only [hfind] at h
  cases hp : parse_value r with
  | error e => simp [hp] at h
  | ok nd =>
    simp only [hp] at h
    cases hfs : fs nd.value with
    | ok v => simp [hfs] at h
    | error ce => cases ce <;> simp [hfs] at h

theorem getArray_not_missing {T : Type} (ty : String)
    (fs : String → Except ConvError T) (name k r : String) (s : Store)
    (hfind : Store.find s k = some r) :
    ∀ k' n', getArray ty fs name k s ≠ .error (.missingKey k' n') := by
  intro k' n' h
  unfold getArray at h
  simp only [hfind] at h
  cases hp : parse_value r with
  | error e => simp [hp] at h
  | ok nd =>
    simp only [hp] at h
    cases hc : convArray fs nd.children with
    | ok vs => simp [hc] at h
    | error pe =>
      obtain ⟨txt, ce⟩ := pe
      cases ce <;> simp [hc] at h

theorem getMatrix_not_missing {T : Type} (ty : String)
    (fs : String → Except ConvError T) (name k r : String) (s : Store)
    (hfind : Store.find s k = some r) :
    ∀ k' n', getMatrix ty fs name k s ≠ .error (.missingKey k' n') := by
  intro k' n' h
  unfold getMatrix at h
  simp only [hfind] at h
  cases hp : parse_value r with
  | error e => simp [hp] at h
  | ok nd =>
    simp only [hp] at h
    cases hc : convMatrix fs nd.children with
    | ok m => simp [hc] at h
    | error me =>
      cases me with
      | dims => simp [hc] at h
      | elem txt ce => cases ce <;> simp [hc] at h

theorem getS_snd {T : Type} (ty : String) (fs : String → Except ConvError T)
    (name k : String) (s : Store) : (getS ty fs name k s).2 = s := by
  unfold getS atS
  cases Store.find s k with
  | none => rfl
  | some r =>
    dsimp only
    cases parse_value r with
    | error e => rfl
    | ok nd =>
      dsimp only
      cases fs nd.value with
      | ok v => rfl
      | error ce => cases ce <;> rfl

theorem getArrayS_snd {T : Type} (ty : String)
    (fs : String → Except ConvError T) (name k : String) (s : Store) :
    (getArrayS ty fs name k s).2 = s := by
  unfold getArrayS atS
  cases Store.find s k with
  | none => rfl
  | some r =>
    dsimp only
    cases parse_value r with
    | error e => rfl
    | ok nd =>
      dsimp only
      cases convArray fs nd.children with
      | ok vs => rfl
      | error pe =>
        obtain ⟨txt, ce⟩ := pe
        cases ce <;> rfl

theorem getMatrixS_snd {T : Type} (ty : String)
    (fs : String → Except ConvError T) (name k : String) (s : Store) :
    (getMatrixS ty fs name k s).2 = s := by
  unfold getMatrixS atS
  cases Store.find s k with
  | none => rfl
  | some r =>
    dsimp only
    cases parse_value r with
    | error e => rfl
    | ok nd =>
      dsimp only
      cases convMatrix fs nd.children with
      | ok m => rfl
      | error me =>
        cases me with
        | dims => rfl
        | elem txt ce => cases ce <;> rfl

/-! The claims. -/

/-- C1 (code bug): Configuration::setArray does not serialize each element
once and join the results: for the input values [1, 2] under key "k" it
stores a leading separator followed by the serialization of the WHOLE
vector repeated once per element, which differs from the claimed join of
the element serializations "1" and "2" for every choice of vector
serializer and of separator. -/
theorem setArray_whole_vector_bug :
    ∀ (tsVec : List Nat → String) (sep : String),
      setArray tsVec "k" [1, 2] [] =
        [("k", ("," ++ tsVec [1, 2]) ++ ("," ++ tsVec [1, 2]))] ∧
      ("," ++ tsVec [1, 2]) ++ ("," ++ tsVec [1, 2]) ≠ "1" ++ sep ++ "2" := by
  intro tsVec sep
  constructor
  · have hstr : (((("" : String) ++ ",") ++ tsVec [1, 2]) ++ ",") ++ tsVec [1, 2]
        = ("," ++ tsVec [1, 2]) ++ ("," ++ tsVec [1, 2]) := by
      apply strExt
      simp [strData_append, show (",").data = [','] from rfl,
        show ("" : String).data = ([] : List Char) from rfl]
    calc setArray tsVec "k" [1, 2] []
        = [("k", (((("" : String) ++ ",") ++ tsVec [1, 2]) ++ ",")
            ++ tsVec [1, 2])] := rfl
      _ = [("k", ("," ++ tsVec [1, 2]) ++ ("," ++ tsVec [1, 2]))] := by
          rw [hstr]
  · intro heq
    have hd := congrArg String.data heq
    simp only [strData_append] at hd
    simp only [List.cons_append, List.nil_append, List.append_assoc] at hd
    injection hd with h1 h2
    exact absurd h1 (by decide)

/-- C2: for every key absent from the store, get fails with MissingKey while
the with-default overload returns the default without error; and no
with-default variant (scalar, array or matrix) ever raises MissingKey. -/
theorem absent_key_missing {T : Type} (ty : String)
    (fs : String → Except ConvError T) (name k : String) (d : T)
    (dArr : List T) (dMat : Matrix T) (s : Store) :
    (Store.find s k = none →
      get ty fs name k s = .error (.missingKey k name) ∧
      getWithDefault ty fs name k d s = .ok d) ∧
    (∀ k' n', getWithDefault ty fs name k d s ≠ .error (.missingKey k' n')) ∧
    (∀ k' n', getArrayWithDefault ty fs name k dArr s ≠ .error (.missingKey k' n')) ∧
    (∀ k' n', getMatrixWithDefault ty fs name k dMat s ≠ .error (.missingKey k' n')) := by
  refine ⟨fun hnone => ⟨?_, ?_⟩, ?_, ?_, ?_⟩
  · unfold get
    simp [hnone]
  · unfold getWithDefault Store.has
    simp [hnone]
  · intro k' n'
    cases hfind : Store.find s k with
    | none =>
      unfold getWithDefault Store.has
      simp [hfind]
    | some r =>
      unfold getWithDefault Store.has
      simp only [hfind, Option.isSome_some, if_true]
      exact get_not_missing ty fs name k r s hfind k' n'
  · intro k' n'
    cases hfind : Store.find s k with
    | none =>
      unfold getArrayWithDefault Store.has
      simp [hfind]
    | some r =>
      unfold getArrayWithDefault Store.has
      simp only [hfind, Option.isSome_some, if_true]
      exact getArray_not_missing ty fs name k r s hfind k' n'
  · intro k' n'
    cases hfind : Store.find s k with
    | none =>
      unfold getMatrixWithDefault Store.has
      simp [hfind]
    | some r =>
      unfold getMatrixWithDefault Store.has
      simp only [hfind, Option.isSome_some, if_true]
      exact getMatrix_not_missing ty fs name k r s hfind k' n'

/-- C2 witness at a concrete absent key. -/
theorem absent_key_missing_witness :
    get "nat" natFromString "cfg" "k" [] = .error (.missingKey "k" "cfg") ∧
    getWithDefault "nat" natFromString "cfg" "k" 7 [] = .ok 7 :=
  (absent_key_missing "nat" natFromString "cfg" "k" 7 [] [] []).1 rfl

/-- C3: for a present key whose raw text does not convert to the requested
type, get fails with InvalidKey recording the offending text and the target
type descriptor: a malformed-value failure records the parsed root text and
an overflow failure records the stored raw text. -/
theorem get_invalid_conversion {T : Type} (ty : String)
    (fs : String → Except ConvError T) (name k r : String) (s : Store)
    (hfind : Store.find s k = some r) :
    (∀ nd m, parse_value r = .ok nd → fs nd.value = .error (.invalidArg m) →
      get ty fs name k s = .error (.invalidKey k name nd.value ty m)) ∧
    (∀ nd m, parse_value r = .ok nd → fs nd.value = .error (.overflow m) →
      get ty fs name k s = .error (.invalidKey k name r ty m)) := by
  constructor <;>
    · intro nd m hp hc
      simp only [get, hfind, hp, hc]

/-- C3 witness: a malformed value and an overflowing value, both with the
offending text and the type descriptor recorded in the error. -/
theorem get_invalid_conversion_witness :
    get "nat" natFromString "cfg" "bad" [("bad", "notanumber")] =
      .error (.invalidKey "bad" "cfg" "notanumber" "nat" "conversion failed") ∧
    get "uint8" u8FromString "cfg" "huge" [("huge", "300")] =
      .error (.invalidKey "huge" "cfg" "300" "uint8" "overflow") :=
  ⟨(get_invalid_conversion "nat" natFromString "cfg" "bad" "notanumber"
      [("bad", "notanumber")] rfl).1 ⟨"notanumber", [⟨"notanumber", []⟩]⟩
      "conversion failed" rfl rfl,
   (get_invalid_conversion "uint8" u8FromString "cfg" "huge" "300"
      [("huge", "300")] rfl).2 ⟨"300", [⟨"300", []⟩]⟩ "overflow" rfl rfl⟩

/-- C4: for a present key the with-default overload behaves exactly as get;
in particular malformed raw text still fails with InvalidKey and the
supplied default is not returned. -/
theorem present_default_eq_get {T : Type} (ty : String)
    (fs : String → Except ConvError T) (name k r : String) (d : T) (s : Store)
    (hfind : Store.find s k = some r) :
    getWithDefault ty fs name k d s = get ty fs name k s ∧
    (∀ nd m, parse_value r = .ok nd → fs nd.value = .error (.invalidArg m) →
      getWithDefault ty fs name k d s = .error (.invalidKey k name nd.value ty m)) := by
  have heq : getWithDefault ty fs name k d s = get ty fs name k s := by
    unfold getWithDefault Store.has
    simp only [hfind, Option.isSome_some, if_true]
  refine ⟨heq, fun nd m hp hc => ?_⟩
  rw [heq]
  simp only [get, hfind, hp, hc]

/-- C4 witness: a present but malformed value makes the with-default
overload fail with InvalidKey instead of returning the default. -/
theorem present_default_eq_get_witness :
    getWithDefault "nat" natFromString "cfg" "k" 5 [("k", "oops")] =
      .error (.invalidKey "k" "cfg" "oops" "nat" "conversion failed") :=
  (present_default_eq_get "nat" natFromString "cfg" "k" "oops" 5
    [("k", "oops")] rfl).2 ⟨"oops", [⟨"oops", []⟩]⟩ "conversion failed" rfl rfl

/-- C5 counterexample: for stored text "[x],2" the second top-level child
"2" has zero children, yet the call fails with the element conversion error
for "x", whose reason is not "matrix has less than two dimensions"; so the
claim that the reason always accompanies an empty top-level child fails. -/
theorem getMatrix_empty_row_cex :
    parse_value "[x],2" =
      .ok ⟨"[x],2", [⟨"[x]", [⟨"x", []⟩]⟩, ⟨"2", []⟩]⟩ ∧
    getMatrix "nat" natFromString "cfg" "m" [("m", "[x],2")] =
      .error (.invalidKey "m" "cfg" "x" "nat" "conversion failed") ∧
    ("conversion failed" : String) ≠ "matrix has less than two dimensions" :=
  ⟨rfl, rfl, by decide⟩

/-- C5 (amended): if some top-level child of the parse tree has zero
children, getMatrix fails with an InvalidKey error; when additionally every
earlier top-level child is a non-empty row whose elements all convert, the
error records the full stored text and the reason "matrix has less than two
dimensions" (so a flat array such as "1,2,3" is rejected with that
reason). -/
theorem getMatrix_empty_row {T : Type} (ty : String)
    (fs : String → Except ConvError T) (name k r : String) (nd : Node)
    (s : Store) (hfind : Store.find s k = some r)
    (hparse : parse_value r = .ok nd) :
    ((∃ c ∈ nd.children, c.children = []) →
      ∃ txt m, getMatrix ty fs name k s = .error (.invalidKey k name txt ty m)) ∧
    (∀ pre c rest, nd.children = pre ++ c :: rest → c.children = [] →
      (∀ c' ∈ pre, c'.children ≠ [] ∧ ∃ row, convArray fs c'.children = .ok row) →
      getMatrix ty fs name k s =
        .error (.invalidKey k name r ty "matrix has less than two dimensions")) := by
  constructor
  · intro hex
    obtain ⟨e, he⟩ := convMatrix_error_of_mem_empty fs nd.children hex
    cases e with
    | dims =>
      exact ⟨r, "matrix has less than two dimensions",
        by simp only [getMatrix, hfind, hparse, he]⟩
    | elem txt ce =>
      cases ce with
      | invalidArg m =>
        exact ⟨txt, m, by simp only [getMatrix, hfind, hparse, he]⟩
      | overflow m =>
        exact ⟨r, m, by simp only [getMatrix, hfind, hparse, he]⟩
  · intro pre c rest hdecomp hc hpre
    simp only [getMatrix, hfind, hparse, hdecomp,
      convMatrix_first_dims fs pre c rest hpre hc]

/-- C5 witness: the flat array "1,2,3" is rejected with the dimension
reason and the full stored text. -/
theorem getMatrix_empty_row_witness :
    getMatrix "nat" natFromString "cfg" "flat" [("flat", "1,2,3")] =
      .error (.invalidKey "flat" "cfg" "1,2,3" "nat"
        "matrix has less than two dimensions") :=
  (getMatrix_empty_row "nat" natFromString "cfg" "flat" "1,2,3"
    ⟨"1,2,3", [⟨"1", []⟩, ⟨"2", []⟩, ⟨"3", []⟩]⟩ [("flat", "1,2,3")] rfl rfl).2
    [] ⟨"1", []⟩ [⟨"2", []⟩, ⟨"3", []⟩] rfl rfl
    (fun c' hc' => absurd hc' (List.not_mem_nil c'))

/-- C6 counterexample: with an 8-bit converter the element "300" of the
stored text "1,300" fails conversion with an overflow, and the resulting
InvalidKey records the full stored text "1,300", not that element's raw
text "300"; so the claim that any single element failure names the
element's raw text fails. -/
theorem getArray_overflow_full_text_cex :
    getArray "uint8" u8FromString "cfg" "a" [("a", "1,300")] =
      .error (.invalidKey "a" "cfg" "1,300" "uint8" "overflow") ∧
    ("1,300" : String) ≠ "300" :=
  ⟨rfl, by decide⟩

/-- C6 (amended): getArray converts each top-level child's value
independently and in order; an empty parse yields the empty sequence; a
malformed-value failure at an element aborts the call with InvalidKey
naming that element's raw text, while an overflow failure at an element
aborts the call with InvalidKey naming the full stored text. -/
theorem getArray_elementwise {T : Type} (ty : String)
    (fs : String → Except ConvError T) (name k r : String) (nd : Node)
    (s : Store) (hfind : Store.find s k = some r)
    (hparse : parse_value r = .ok nd) :
    (nd.children = [] → getArray ty fs name k s = .ok []) ∧
    (∀ vs, List.Forall₂ (fun (c : Node) (v : T) => fs c.value = .ok v)
        nd.children vs →
      getArray ty fs name k s = .ok vs) ∧
    (∀ pre c rest, nd.children = pre ++ c :: rest →
      (∀ c' ∈ pre, ∃ v, fs c'.value = .ok v) →
      (∀ m, fs c.value = .error (.invalidArg m) →
        getArray ty fs name k s = .error (.invalidKey k name c.value ty m)) ∧
      (∀ m, fs c.value = .error (.overflow m) →
        getArray ty fs name k s = .error (.invalidKey k name r ty m))) := by
  refine ⟨fun hch => ?_, fun vs hvs => ?_,
    fun pre c rest hdecomp hpre => ⟨fun m hm => ?_, fun m hm => ?_⟩⟩
  · simp only [getArray, hfind, hparse, hch, convArray]
  · simp only [getArray, hfind, hparse, convArray_all_ok fs hvs]
  · simp only [getArray, hfind, hparse, hdecomp,
      convArray_first_error fs pre c rest _ hpre hm]
  · simp only [getArray, hfind, hparse, hdecomp,
      convArray_first_error fs pre c rest _ hpre hm]

/-- C6 witness: ordered conversion of "1,2,3", the empty raw text yielding
the empty sequence, and a malformed element failure naming the element. -/
theorem getArray_elementwise_witness :
    getArray "nat" natFromString "cfg" "a" [("a", "1,2,3")] = .ok [1, 2, 3] ∧
    getArray "nat" natFromString "cfg" "e" [("e", "")] = .ok [] ∧
    getArray "uint8" u8FromString "cfg" "b" [("b", "1,x")] =
      .error (.invalidKey "b" "cfg" "x" "uint8" "conversion failed") :=
  ⟨(getArray_elementwise "nat" natFromString "cfg" "a" "1,2,3"
      ⟨"1,2,3", [⟨"1", []⟩, ⟨"2", []⟩, ⟨"3", []⟩]⟩ [("a", "1,2,3")] rfl rfl).2.1
      [1, 2, 3]
      (List.Forall₂.cons rfl (List.Forall₂.cons rfl
        (List.Forall₂.cons rfl List.Forall₂.nil))),
   (getArray_elementwise "nat" natFromString "cfg" "e" "" ⟨"", []⟩
      [("e", "")] rfl rfl).1 rfl,
   ((getArray_elementwise "uint8" u8FromString "cfg" "b" "1,x"
      ⟨"1,x", [⟨"1", []⟩, ⟨"x", []⟩]⟩ [("b", "1,x")] rfl rfl).2.2
      [⟨"1", []⟩] ⟨"x", []⟩ [] rfl
      (fun c' hc' => by
        rw [List.mem_singleton] at hc'
        subst hc'
        exact ⟨1, rfl⟩)).1 "conversion failed" rfl⟩

/-- C7: whenever the serializer and the parser are exact inverses at v and
the serialization is a plain scalar token (as holds for integers), set
followed by get returns the original value. -/
theorem set_get_roundtrip {T : Type} (ty : String) (ts : T → String)
    (fs : String → Except ConvError T) (name k : String) (v : T) (s : Store)
    (hinv : fs (ts v) = .ok v) (htok : plainToken (ts v)) :
    get ty fs name k (set ts k v s) = .ok v := by
  simp only [get, set, find_set_self, parse_plain (ts v) htok, hinv]

/-- C7 witness: the integer 42 round-trips through set and get. -/
theorem set_get_roundtrip_witness :
    natFromString (Nat.repr 42) = .ok 42 ∧ plainToken (Nat.repr 42) ∧
    get "nat" natFromString "cfg" "k" (set Nat.repr "k" 42 []) = .ok 42 :=
  ⟨rfl, by decide,
   set_get_roundtrip "nat" Nat.repr natFromString "cfg" "k" 42 [] rfl (by decide)⟩

/-- C8: setDefault leaves the store completely unchanged when the key is
present and stores the serialization of the value when it is absent;
setDefaultArray gates setArray in exactly the same way. -/
theorem setDefault_gating {T : Type} (ts : T → String)
    (tsVec : List T → String) (k : String) (v : T) (val : List T) (s : Store) :
    (Store.has s k = true →
      setDefault ts k v s = s ∧ setDefaultArray tsVec k val s = s) ∧
    (Store.has s k = false →
      setDefault ts k v s = set ts k v s ∧
      Store.find (setDefault ts k v s) k = some (ts v) ∧
      setDefaultArray tsVec k val s = setArray tsVec k val s) := by
  refine ⟨fun h => ⟨?_, ?_⟩, fun h => ⟨?_, ?_, ?_⟩⟩
  · simp [setDefault, h]
  · simp [setDefaultArray, h]
  · simp [setDefault, h]
  · simp [setDefault, h, set, find_set_self]
  · simp [setDefaultArray, h]

/-- C8 witness: a present key is untouched, an absent key receives the
serialized value. -/
theorem setDefault_gating_witness :
    setDefault Nat.repr "a" 5 [("a", "1")] = [("a", "1")] ∧
    setDefaultArray (fun _ : List Nat => "x") "a" [1] [("a", "1")] = [("a", "1")] ∧
    Store.find (setDefault Nat.repr "b" 5 [("a", "1")]) "b" = some "5" :=
  ⟨((setDefault_gating Nat.repr (fun _ : List Nat => "x") "a" 5 [1]
      [("a", "1")]).1 rfl).1,
   ((setDefault_gating Nat.repr (fun _ : List Nat => "x") "a" 5 [1]
      [("a", "1")]).1 rfl).2,
   ((setDefault_gating Nat.repr (fun _ : List Nat => "x") "b" 5 [1]
      [("a", "1")]).2 rfl).2.1⟩

/-- C9 counterexample: for stored text "[1],[x]" every top-level child has
at least one child, yet the call does not succeed: the element "x" fails
conversion and the call returns an InvalidKey error, never a success. -/
theorem getMatrix_rows_cex :
    parse_value "[1],[x]" =
      .ok ⟨"[1],[x]", [⟨"[1]", [⟨"1", []⟩]⟩, ⟨"[x]", [⟨"x", []⟩]⟩]⟩ ∧
    getMatrix "nat" natFromString "cfg" "m" [("m", "[1],[x]")] =
      .error (.invalidKey "m" "cfg" "x" "nat" "conversion failed") ∧
    Except.toOption
      (getMatrix "nat" natFromString "cfg" "m" [("m", "[1],[x]")]) = none :=
  ⟨rfl, rfl, rfl⟩

/-- C9 (amended): getMatrix enforces no rectangularity: when every
top-level child has at least one child and every leaf element converts
successfully, the call succeeds and returns the rows in order, each with
its original (possibly unequal) length. -/
theorem getMatrix_rows {T : Type} (ty : String)
    (fs : String → Except ConvError T) (name k r : String) (nd : Node)
    (rows : Matrix T) (s : Store) (hfind : Store.find s k = some r)
    (hparse : parse_value r = .ok nd)
    (hrows : List.Forall₂ (fun (c : Node) (row : List T) =>
      c.children ≠ [] ∧ convArray fs c.children = .ok row) nd.children rows) :
    getMatrix ty fs name k s = .ok rows ∧
    List.Forall₂ (fun (c : Node) (row : List T) =>
      row.length = c.children.length) nd.children rows := by
  constructor
  · simp only [getMatrix, hfind, hparse, convMatrix_all_ok fs hrows]
  · exact hrows.imp (fun c row h => convArray_ok_length fs c.children row h.2)

/-- C9 witness: "[1,2],[3,4,5]" yields the rows [1,2] and [3,4,5] with
their unequal lengths. -/
theorem getMatrix_rows_witness :
    getMatrix "nat" natFromString "cfg" "m" [("m", "[1,2],[3,4,5]")] =
      .ok [[1, 2], [3, 4, 5]] :=
  (getMatrix_rows "nat" natFromString "cfg" "m" "[1,2],[3,4,5]"
    ⟨"[1,2],[3,4,5]",
      [⟨"[1,2]", [⟨"1", []⟩, ⟨"2", []⟩]⟩,
       ⟨"[3,4,5]", [⟨"3", []⟩, ⟨"4", []⟩, ⟨"5", []⟩]⟩]⟩
    [[1, 2], [3, 4, 5]] [("m", "[1,2],[3,4,5]")] rfl rfl
    (List.Forall₂.cons ⟨List.cons_ne_nil _ _, rfl⟩
      (List.Forall₂.cons ⟨List.cons_ne_nil _ _, rfl⟩ List.Forall₂.nil))).1

/-- C10: every read operation leaves the store unchanged, on success and on
every failure path alike: the state-passing translations of get, getArray,
getMatrix and their with-default overloads all return the store they were
given, so among the API only the set family can mutate the store. -/
theorem reads_preserve_store {T : Type} (ty : String)
    (fs : String → Except ConvError T) (name k : String) (d : T)
    (dArr : List T) (dMat : Matrix T) (s : Store) :
    (getS ty fs name k s).2 = s ∧ (getArrayS ty fs name k s).2 = s ∧
    (getMatrixS ty fs name k s).2 = s ∧
    (getWithDefaultS ty fs name k d s).2 = s ∧
    (getArrayWithDefaultS ty fs name k dArr s).2 = s ∧
    (getMatrixWithDefaultS ty fs name k dMat s).2 = s := by
  refine ⟨getS_snd ty fs name k s, getArrayS_snd ty fs name k s,
    getMatrixS_snd ty fs name k s, ?_, ?_, ?_⟩
  · unfold getWithDefaultS hasS atS
    cases Store.find s k with
    | none => rfl
    | some r => exact getS_snd ty fs name k s
  · unfold getArrayWithDefaultS hasS atS
    cases Store.find s k with
    | none => rfl
    | some r => exact getArrayS_snd ty fs name k s
  · unfold getMatrixWithDefaultS hasS atS
    cases Store.find s k with
    | none => rfl
    | some r => exact getMatrixS_snd ty fs name k s

end Allpix
